import Mathlib

/-!
Verification of the repository metadata store (`cmd/repo-updater/repos/store.go`):
the `DBStore` facade (`ListRepos`, `UpsertRepos`, `Transact`, `Done`), the
cursor-based pagination loop, the sources set codec and the batch
reconciliation SQL statement (`upsertReposQueryFmtstr`), shallowly embedded as
executable Lean definitions over an explicit model of the `repo` table.
-/

namespace ReposStore

/-! ## Data model

`Repo` mirrors the Go entity used by `store.go` (fields read in
`upsertReposQuery` and written in `scanRepo`).  Times are modelled as `Int`
(nanoseconds since the epoch), with `0` playing the role of Go's zero
`time.Time` (`t.IsZero()`).  Go's `uint32` IDs are modelled as `Nat`: the only
arithmetic performed on them is `max`/comparison, so no wraparound arises. -/

/-- External origin triple of a repo, as read from `r.ExternalRepo` in
`upsertReposQuery` (fields `ServiceType`, `ServiceID`, `ID`).  Empty strings
denote absence (they are turned into SQL `NULL` by `nullStringColumn`). -/
structure ExternalRepoSpec where
  id : String
  serviceType : String
  serviceID : String
deriving DecidableEq, Repr

/-- The opaque metadata payload.  `upsertReposQuery` switches on its dynamic
type: `[]byte`, `string` and `json.RawMessage` are passed through verbatim,
anything else goes through `json.MarshalIndent`, which can fail.  The
`structured` case carries the result of that marshalling: `some s` when the
value serializes to `s`, `none` when `json.MarshalIndent` errors. -/
inductive Metadata where
  | bytes (s : String)
  | str (s : String)
  | raw (s : String)
  | structured (encoded : Option String)
deriving DecidableEq, Repr

/-- The in-memory repository entity (Go `Repo`). -/
structure Repo where
  id : Nat
  name : String
  description : String
  language : String
  createdAt : Int
  updatedAt : Int
  deletedAt : Int
  externalRepo : ExternalRepoSpec
  enabled : Bool
  archived : Bool
  fork : Bool
  sources : List String
  metadata : Metadata
deriving DecidableEq, Repr

/-- A persisted row of the `repo` table (column layout of
`listReposQueryFmtstr` / `upsertReposQueryFmtstr`).  Nullable columns
(`updated_at`, `deleted_at` and the external origin triple) are `Option`s;
`sources` is the key list of the stored `jsonb` object (keys of a JSON object
are unique, but the model does not rely on that); `metadata` is the stored
`jsonb` text. -/
structure Row where
  id : Nat
  name : String
  description : String
  language : String
  createdAt : Int
  updatedAt : Option Int
  deletedAt : Option Int
  externalServiceType : Option String
  externalServiceID : Option String
  externalID : Option String
  enabled : Bool
  archived : Bool
  fork : Bool
  sources : List String
  metadata : String
deriving DecidableEq, Repr

/-! ## Column codecs (`nullTimeColumn`, `nullStringColumn`, `sourcesColumn`,
`scanRepo`) -/

/-- Model of `nullTimeColumn` (store.go): a zero time is persisted as SQL `NULL`. -/
def nullTimeColumn (t : Int) : Option Int :=
  if t = 0 then none else some t

/-- Model of `nullStringColumn` (store.go): an empty string is persisted as SQL `NULL`. -/
def nullStringColumn (s : String) : Option String :=
  if s = "" then none else some s

/-- Model of `sourcesColumn` (store.go): the sources sequence is loaded into a Go map
(`m[src] = nil` for each element) and marshalled as a JSON object, so the
persisted value is exactly the key set — duplicates collapse.  The model keeps
the key set as a duplicate-free list; its order is irrelevant because decoding
(`scanRepo`) sorts. -/
def sourcesColumn (sources : List String) : List String :=
  sources.dedup

/-- The sources-decoding step of `scanRepo` (store.go): unmarshal the stored
JSON object into a map, collect its keys and `sort.Strings` them.  Collecting
the keys of a map deduplicates; `sort.Strings` sorts lexicographically. -/
def scanSources (keys : List String) : List String :=
  List.insertionSort (fun a b : String => a ≤ b) keys.dedup

/-- The `nullTime` scanner used by `scanRepo` leaves the zero value in place
for SQL `NULL`.  Modelled from the spec: `nullTime`/`nullString` are declared
outside this file; §3 of the spec says absence is "encoded as a null, not a
zero value", so decoding a `NULL` yields the zero value (`0` / `""`). -/
def scanNullTime (t : Option Int) : Int := t.getD 0

/-- String counterpart of `scanNullTime` (the `nullString` scanner). -/
def scanNullString (s : Option String) : String := s.getD ""

/-- Model of `scanRepo` (store.go): decode one result row into a `Repo` entity.  All
fields are overwritten from the row; the raw metadata is kept opaque
(`r.Metadata = metadata`, a `json.RawMessage`); sources are decoded by
`scanSources`. -/
def scanRepo (row : Row) : Repo :=
  { id := row.id
    name := row.name
    description := row.description
    language := row.language
    createdAt := row.createdAt
    updatedAt := scanNullTime row.updatedAt
    deletedAt := scanNullTime row.deletedAt
    externalRepo :=
      { serviceType := scanNullString row.externalServiceType
        serviceID := scanNullString row.externalServiceID
        id := scanNullString row.externalID }
    enabled := row.enabled
    archived := row.archived
    fork := row.fork
    sources := scanSources row.sources
    metadata := Metadata.raw row.metadata }

/-! ## Transaction manager (`DBStore`, `Transact`, `Done`)

The `DB` handle is modelled by which interfaces it satisfies: `tx` is a handle
that type-asserts to `Tx`; `txBeginner` asserts to `TxBeginner` and its
`BeginTx` succeeds, returning the carried transaction; `txBeginnerErr` asserts
to `TxBeginner` but `BeginTx` fails with the carried message; `plain` is
neither `Tx` nor `TxBeginner`. -/

/-- Transaction options (`sql.TxOptions`): isolation level and read-only flag,
copied opaquely by `Transact`. -/
structure TxOptions where
  isolation : Nat
  readOnly : Bool
deriving DecidableEq, Repr

/-- The `DB` handle of a `DBStore`, classified by its dynamic capabilities. -/
inductive DB where
  | tx (t : Nat)
  | txBeginner (t : Nat)
  | txBeginnerErr (msg : String)
  | plain
deriving DecidableEq, Repr

/-- Whether the handle type-asserts to the `Tx` interface (`s.db.(Tx)`). -/
def DB.isTx : DB → Bool
  | .tx _ => true
  | _ => false

/-- Model of `DBStore` (store.go): the DB handle, the configured external-service kind
allow-list and the transaction options. -/
structure DBStore where
  db : DB
  kinds : List String
  txOpts : TxOptions
deriving DecidableEq, Repr

/-- Errors returned by `DBStore.Transact`. -/
inductive StoreErr where
  | notTransactable
  | beginTx (msg : String)
deriving DecidableEq, Repr

/-- Model of `DBStore.Transact` (store.go): if the handle is already a `Tx`, return the
same store; otherwise the handle must be a `TxBeginner` (else the distinct
"dbstore: not transactable" error); on successful `BeginTx` return a fresh
store built by the composite literal `&DBStore\x7bdb: tx, txOpts: s.txOpts\x7d`,
whose omitted `kinds` field gets Go's zero value (nil slice, modelled `[]`). -/
def DBStore.transact (s : DBStore) : Except StoreErr DBStore :=
  match s.db with
  | .tx _ => .ok s
  | .txBeginner t => .ok { db := DB.tx t, kinds := [], txOpts := s.txOpts }
  | .txBeginnerErr m => .error (.beginTx m)
  | .plain => .error .notTransactable

/-- Outcome of `DBStore.Done` on the underlying handle. -/
inductive TxAction where
  | noop
  | commit
  | rollback
deriving DecidableEq, Repr

/-- Model of `DBStore.Done` (store.go).  The variadic `errs ...*error` argument is a
list of nullable pointers to nullable errors: `none` is a nil `*error`,
`some none` a pointer to a nil error, `some (some e)` a pointer to error `e`.
Per the Go switch: not a `Tx` — do nothing; no arguments — commit;
`errs[0] != nil && *errs[0] != nil` — roll back; otherwise commit. -/
def DBStore.done (s : DBStore) (errs : List (Option (Option String))) : TxAction :=
  match s.db with
  | .tx _ =>
    match errs with
    | [] => .commit
    | p :: _ =>
      match p with
      | some (some _) => .rollback
      | _ => .commit
  | _ => .noop

/-- The claim-side condition for rollback: an error pointer was given first,
it is non-nil, and the error it points to is non-nil. -/
def firstPointedErrorPresent : List (Option (Option String)) → Bool
  | some (some _) :: _ => true
  | _ => false

/-! ## Batch serialisation (`upsertReposQuery`)

The Go code serialises each input `Repo` to a JSON `record`; the `batch` CTE
parses that JSON back with `jsonb_to_recordset ... WITH ORDINALITY`.  The
model composes the two into `toRecord : Repo → BatchRow`; the ordinality is
the list position. -/

/-- A row of the `batch` CTE: the JSON `record` of `upsertReposQuery` as
parsed by `jsonb_to_recordset`.  `name`, `description`, `language`,
`created_at`, `sources` and `metadata` come from non-pointer Go fields without
`omitempty`, so they are never SQL `NULL`; the `omitempty` pointer fields are
`Option`s. -/
structure BatchRow where
  id : Nat
  name : String
  description : String
  language : String
  createdAt : Int
  updatedAt : Option Int
  deletedAt : Option Int
  externalServiceType : Option String
  externalServiceID : Option String
  externalID : Option String
  enabled : Bool
  archived : Bool
  fork : Bool
  sources : List String
  metadata : String
deriving DecidableEq, Repr

/-- Errors of the `UpsertRepos` call. -/
inductive UpsertErr where
  | metadataMarshal
  | constraintViolation
  | indexOutOfRange
deriving DecidableEq, Repr

/-- The metadata switch of `upsertReposQuery`: `[]byte`, `string` and
`json.RawMessage` pass through; the default case is `json.MarshalIndent`,
which fails exactly when the value is unserialisable. -/
def marshalMetadata : Metadata → Except UpsertErr String
  | .bytes s => .ok s
  | .str s => .ok s
  | .raw s => .ok s
  | .structured (some s) => .ok s
  | .structured none => .error .metadataMarshal

/-- Serialisation of one `Repo` into its batch `record` (upsertReposQuery,
store.go).  Faithful to the source, including the hard-coded empty
description on the line `Description: "", //r.Description,`. -/
def toRecord (r : Repo) : Except UpsertErr BatchRow :=
  match marshalMetadata r.metadata with
  | .error e => .error e
  | .ok md =>
    .ok { id := r.id
          name := r.name
          description := ""
          language := r.language
          createdAt := r.createdAt
          updatedAt := nullTimeColumn r.updatedAt
          deletedAt := nullTimeColumn r.deletedAt
          externalServiceType := nullStringColumn r.externalRepo.serviceType
          externalServiceID := nullStringColumn r.externalRepo.serviceID
          externalID := nullStringColumn r.externalRepo.id
          enabled := r.enabled
          archived := r.archived
          fork := r.fork
          sources := sourcesColumn r.sources
          metadata := md }

/-- Serialisation of the whole batch, in input order; the first failing
record aborts, before any SQL is issued. -/
def toRecords : List Repo → Except UpsertErr (List BatchRow)
  | [] => .ok []
  | r :: rs =>
    match toRecord r with
    | .error e => .error e
    | .ok b =>
      match toRecords rs with
      | .error e => .error e
      | .ok bs => .ok (b :: bs)

/-! ## The reconciliation statement (`upsertReposQueryFmtstr`)

Each CTE of the SQL statement becomes a list function over the snapshot
`table : List Row`.  All sub-statements of a Postgres data-modifying CTE see
the same snapshot, so `updated` and `inserted` are both computed against the
original `table`. -/

/-- The external-origin part of the `updated` CTE's `WHERE` (and of the third
`NOT EXISTS` of the `inserted` CTE): all six triple fields non-`NULL` and
pairwise equal. -/
def tripleMatches (b : BatchRow) (r : Row) : Bool :=
  r.externalID.isSome && r.externalServiceID.isSome && r.externalServiceType.isSome &&
  b.externalID.isSome && b.externalServiceID.isSome && b.externalServiceType.isSome &&
  (r.externalServiceID == b.externalServiceID) &&
  (r.externalID == b.externalID) &&
  (r.externalServiceType == b.externalServiceType)

/-- The full match condition of the `updated` CTE:
`repo.id = batch.id OR repo.name = batch.name OR (triple)`. -/
def matchesRow (b : BatchRow) (r : Row) : Bool :=
  (r.id == b.id) || (r.name == b.name) || tripleMatches b r

/-- The `SET` list of the `updated` CTE.  `COALESCE(batch.name, repo.name)`
reduces to `batch.name` because the batch name is never `NULL` (non-pointer
Go string).  The `external_id` line is faithful to the source:
`COALESCE(batch.external_id, repo.external_service_id)` — it falls back to
the existing row's `external_service_id`, not its `external_id`. -/
def updateRow (b : BatchRow) (r : Row) : Row :=
  { id := max b.id r.id
    name := b.name
    description := b.description
    language := b.language
    createdAt := b.createdAt
    updatedAt := b.updatedAt
    deletedAt := b.deletedAt
    externalServiceType := b.externalServiceType.orElse (fun _ => r.externalServiceType)
    externalServiceID := b.externalServiceID.orElse (fun _ => r.externalServiceID)
    externalID := b.externalID.orElse (fun _ => r.externalServiceID)
    enabled := b.enabled
    archived := b.archived
    fork := b.fork
    sources := b.sources
    metadata := b.metadata }

/-- The batch row used by `UPDATE ... FROM batch` for a given target row:
Postgres updates each target row at most once, with one of the joining batch
rows; the model picks the first in batch order. -/
def findMatch (batch : List BatchRow) (r : Row) : Option BatchRow :=
  batch.find? (fun b => matchesRow b r)

/-- The table after the `updated` CTE ran: matched rows are updated in place,
unmatched rows are untouched. -/
def tableAfterUpdate (table : List Row) (batch : List BatchRow) : List Row :=
  table.map (fun r =>
    match findMatch batch r with
    | some b => updateRow b r
    | none => r)

/-- The result set of the `updated` CTE (`RETURNING repo.*`): the updated
versions of exactly the matched rows. -/
def updatedRows (table : List Row) (batch : List BatchRow) : List Row :=
  table.filterMap (fun r => (findMatch batch r).map (fun b => updateRow b r))

/-- The three `NOT EXISTS` guards of the `inserted` CTE, evaluated against
the statement snapshot. -/
def insertable (table : List Row) (b : BatchRow) : Bool :=
  !(table.any (fun r => r.id == b.id)) &&
  !(table.any (fun r => r.name == b.name)) &&
  !(table.any (fun r => tripleMatches b r))

/-- One freshly inserted row: the `id` column is absent from the `INSERT`
column list, so it is server-assigned from the serial sequence; all other
columns come from the batch row. -/
def insertRow (nid : Nat) (b : BatchRow) : Row :=
  { id := nid
    name := b.name
    description := b.description
    language := b.language
    createdAt := b.createdAt
    updatedAt := b.updatedAt
    deletedAt := b.deletedAt
    externalServiceType := b.externalServiceType
    externalServiceID := b.externalServiceID
    externalID := b.externalID
    enabled := b.enabled
    archived := b.archived
    fork := b.fork
    sources := b.sources
    metadata := b.metadata }

/-- The result set of the `inserted` CTE (`RETURNING repo.*`): the insertable
batch rows in batch order, with consecutive serial ids starting at `nid` (the
current value of the `repo.id` sequence). -/
def insertRows (table : List Row) (batch : List BatchRow) (nid : Nat) : List Row :=
  match batch with
  | [] => []
  | b :: bs =>
    if insertable table b then insertRow nid b :: insertRows table bs (nid + 1)
    else insertRows table bs nid

/-- The table state once the whole statement has run: updates applied in
place, inserted rows appended. -/
def finalTable (table : List Row) (batch : List BatchRow) (nid : Nat) : List Row :=
  tableAfterUpdate table batch ++ insertRows table batch nid

/-- One row of the final `SELECT`, given the (optional) `updated` and
`inserted` rows joined to a batch row.  `GREATEST` ignores SQL `NULL`s
(modelled by defaulting absent ids to `0`, a neutral element for `max` on
`Nat`); each `COALESCE` takes the first non-`NULL` value, which for columns
that are non-`NULL` in table rows is the first of the joined rows present,
and for nullable columns falls through row-present-but-column-`NULL` cases
exactly as `COALESCE` does. -/
def hydrate (b : BatchRow) (u iR : Option Row) : Row :=
  { id := max (max ((u.map Row.id).getD 0) ((iR.map Row.id).getD 0)) b.id
    name := ((u.map Row.name).orElse (fun _ => iR.map Row.name)).getD b.name
    description :=
      ((u.map Row.description).orElse (fun _ => iR.map Row.description)).getD b.description
    language := ((u.map Row.language).orElse (fun _ => iR.map Row.language)).getD b.language
    createdAt := ((u.map Row.createdAt).orElse (fun _ => iR.map Row.createdAt)).getD b.createdAt
    updatedAt :=
      ((u.bind Row.updatedAt).orElse (fun _ => iR.bind Row.updatedAt)).orElse
        (fun _ => b.updatedAt)
    deletedAt :=
      ((u.bind Row.deletedAt).orElse (fun _ => iR.bind Row.deletedAt)).orElse
        (fun _ => b.deletedAt)
    externalServiceType :=
      ((u.bind Row.externalServiceType).orElse (fun _ => iR.bind Row.externalServiceType)).orElse
        (fun _ => b.externalServiceType)
    externalServiceID :=
      ((u.bind Row.externalServiceID).orElse (fun _ => iR.bind Row.externalServiceID)).orElse
        (fun _ => b.externalServiceID)
    externalID :=
      ((u.bind Row.externalID).orElse (fun _ => iR.bind Row.externalID)).orElse
        (fun _ => b.externalID)
    enabled := ((u.map Row.enabled).orElse (fun _ => iR.map Row.enabled)).getD b.enabled
    archived := ((u.map Row.archived).orElse (fun _ => iR.map Row.archived)).getD b.archived
    fork := ((u.map Row.fork).orElse (fun _ => iR.map Row.fork)).getD b.fork
    sources := ((u.map Row.sources).orElse (fun _ => iR.map Row.sources)).getD b.sources
    metadata := ((u.map Row.metadata).orElse (fun _ => iR.map Row.metadata)).getD b.metadata }

/-- The output rows contributed by one batch row in the final `SELECT`:
`FROM batch LEFT JOIN updated ON batch.name = updated.name LEFT JOIN inserted
ON batch.name = inserted.name`.  A `LEFT JOIN` keeps the batch row with a
`NULL` partner when nothing joins, and multiplies it when several rows
join. -/
def rowsFor (us ins : List Row) (b : BatchRow) : List Row :=
  let ubs := us.filter (fun u => u.name == b.name)
  let ibs := ins.filter (fun r => r.name == b.name)
  let ul : List (Option Row) := if ubs.isEmpty then [none] else ubs.map some
  let il : List (Option Row) := if ibs.isEmpty then [none] else ibs.map some
  (ul.map (fun u => il.map (fun iR => hydrate b u iR))).flatten

/-- The full result set of the reconciliation statement, in
`ORDER BY batch.ordinality` order (join multiplicities preserved within each
ordinal). -/
def upsertOutputRows (table : List Row) (batch : List BatchRow) (nid : Nat) : List Row :=
  (batch.map (rowsFor (updatedRows table batch) (insertRows table batch nid))).flatten

/-- The single output row for a batch row when each join partner is unique:
the hydration of the batch row with the (at most one) updated and inserted
rows sharing its name. -/
def hydrateOne (us ins : List Row) (b : BatchRow) : Row :=
  hydrate b ((us.filter (fun u => u.name == b.name)).head?)
    ((ins.filter (fun r => r.name == b.name)).head?)

/-! ## `UpsertRepos` -/

/-- The decode loop of `UpsertRepos`: `scanAll` invokes `scanRepo(repos[i])`
for the `i`-th returned row, purely by position with no bounds check — one
row more than `len(repos)` indexes past the end of the caller's slice. -/
def decodeRows (repos : List Repo) (out : List Row) : Except UpsertErr (List Repo) :=
  if repos.length < out.length then .error .indexOutOfRange
  else .ok (out.map scanRepo ++ repos.drop out.length)

/-- Unique-name check on the resulting table state.  Modelled from the spec:
the schema (not part of the sources here) declares `name` as unique
(§3 "Name (unique, case-insensitive)"), so the statement errors — before any
row is returned — whenever the update+insert outcome would contain two rows
with the same name. -/
def upsertConstraintsOK (table : List Row) (batch : List BatchRow) (nid : Nat) : Prop :=
  ((finalTable table batch nid).map Row.name).Nodup

instance (table : List Row) (batch : List BatchRow) (nid : Nat) :
    Decidable (upsertConstraintsOK table batch nid) :=
  inferInstanceAs (Decidable (List.Nodup _))

/-- Model of `DBStore.UpsertRepos` (store.go): empty input is a no-op;
otherwise serialise the batch (metadata errors abort before I/O), run the
reconciliation statement (a unique-name violation aborts it atomically) and
decode each returned row into the input slot of the same position.  `nid` is
the current value of the `repo.id` serial sequence. -/
def upsertRepos (table : List Row) (nid : Nat) (repos : List Repo) :
    Except UpsertErr (List Repo) :=
  if repos.isEmpty then .ok repos
  else
    match toRecords repos with
    | .error e => .error e
    | .ok batch =>
      if upsertConstraintsOK table batch nid then
        decodeRows repos (upsertOutputRows table batch nid)
      else .error .constraintViolation

/-! ## Concrete inputs for the evaluation theorems -/

/-- A transient repo with neutral field values, specialised below. -/
def baseRepo : Repo :=
  { id := 0
    name := ""
    description := ""
    language := ""
    createdAt := 1
    updatedAt := 0
    deletedAt := 0
    externalRepo := { id := "", serviceType := "", serviceID := "" }
    enabled := true
    archived := false
    fork := false
    sources := ["src"]
    metadata := Metadata.raw "null" }

/-- First repo of the spec's empty-table scenario: `\x7bid:0, name:"a",
sources:["x"]\x7d`. -/
def repoA : Repo := { baseRepo with name := "a", sources := ["x"] }

/-- Second repo of the spec's empty-table scenario: `\x7bid:5, name:"b"\x7d`. -/
def repoB : Repo := { baseRepo with id := 5, name := "b", sources := [] }

/-- An existing persisted row whose `external_service_id` (`"SVC"`) differs
from its `external_id` (`"EXT"`), used to exhibit the `external_id`
coalescing defect. -/
def rowE : Row :=
  { id := 1
    name := "e"
    description := "d"
    language := ""
    createdAt := 1
    updatedAt := none
    deletedAt := none
    externalServiceType := some "T"
    externalServiceID := some "SVC"
    externalID := some "EXT"
    enabled := true
    archived := false
    fork := false
    sources := ["s"]
    metadata := "null" }

/-- An incoming repo matching `rowE` by numeric id, with an absent external
origin triple (so every incoming triple column is `NULL` in the batch). -/
def repoD : Repo := { baseRepo with id := 1, name := "e" }

/-- An incoming repo carrying a non-empty description. -/
def repoC : Repo := { baseRepo with name := "c", description := "hello" }

/-- Two distinct input repos sharing the name `"n"`. -/
def repoN1 : Repo := { baseRepo with name := "n", language := "go" }

/-- Second repo sharing the name `"n"`. -/
def repoN2 : Repo := { baseRepo with name := "n", language := "ts" }

/-! ## Read path (`ListRepos`, `listReposQuery`, `paginate`) -/

/-- Model of Go's `strings.ToUpper` as used by `listReposQuery` on each
configured kind: uppercase every character. -/
def stringToUpper (s : String) : String :=
  String.mk (s.data.map Char.toUpper)

/-- The row predicate of `listReposQueryFmtstr` (except the cursor bound):
`deleted_at IS NULL AND kinds AND (sources != '\x7b\x7d' OR names)`.
`listReposQuery` renders an empty kind list as `TRUE` and upper-cases the
kinds; a row whose `external_service_type` is `NULL` never satisfies a
non-trivial `IN` list.  An empty name list renders as `FALSE`. -/
def listRowPred (kinds names : List String) (r : Row) : Bool :=
  (r.deletedAt == none) &&
  (kinds.isEmpty ||
    (match r.externalServiceType with
     | some t => (kinds.map stringToUpper).contains t
     | none => false)) &&
  (!r.sources.isEmpty || names.contains r.name)

/-- One page of `listReposQuery`: rows with `id` strictly above the cursor
that satisfy the filter, `ORDER BY id ASC LIMIT limit`. -/
def listReposPage (table : List Row) (kinds names : List String) (cursor : Int)
    (limit : Nat) : List Row :=
  (List.insertionSort (fun a b : Row => a.id ≤ b.id)
    (table.filter (fun r => decide (cursor < (r.id : Int)) && listRowPred kinds names r))).take
    limit

/-- Model of the loop body of `DBStore.paginate` (store.go).  Each iteration:
if `cursor == next` stop; otherwise set `cursor := next`, run one page query,
append the scanned rows to the accumulator, and set `next` to the id of the
accumulator's last element when the accumulator is non-empty.  The returned
`Nat` counts loop iterations, i.e. executed page queries.  The `fuel`
argument bounds the recursion; `paginate` supplies enough for any table
(each productive round strictly increases the cursor to one of finitely many
row ids). -/
def paginateAux (table : List Row) (kinds names : List String) (limit : Nat) :
    Nat → Int → Int → List Repo → Option (List Repo × Nat)
  | 0, _, _, _ => none
  | fuel + 1, cursor, next, acc =>
    if cursor = next then some (acc, 0)
    else
      let c := next
      let acc' := acc ++ (listReposPage table kinds names c limit).map scanRepo
      let next' :=
        match acc'.getLast? with
        | some r => (r.id : Int)
        | none => next
      match paginateAux table kinds names limit fuel c next' acc' with
      | some (res, n) => some (res, n + 1)
      | none => none

/-- Model of `DBStore.paginate` (store.go): `cursor, next := -1, 0`, empty
accumulator, then the loop.  The page size is a parameter here; the source
fixes it to `500` at the single call site (`ListRepos`). -/
def paginate (table : List Row) (kinds names : List String) (limit : Nat) :
    Option (List Repo × Nat) :=
  paginateAux table kinds names limit (table.length + 2) (-1) 0 []

/-- Model of `DBStore.ListRepos` (store.go): paginate `listReposQuery` with
the configured kind allow-list and the given names, page size 500. -/
def listRepos (s : DBStore) (table : List Row) (names : List String) :
    Option (List Repo) :=
  (paginate table s.kinds names 500).map Prod.fst

/-! ## Concrete inputs for pagination and transaction theorems -/

/-- A live, sourced table row with the given id and name. -/
def mkRow (i : Nat) (n : String) : Row :=
  { id := i
    name := n
    description := ""
    language := ""
    createdAt := 1
    updatedAt := none
    deletedAt := none
    externalServiceType := none
    externalServiceID := none
    externalID := none
    enabled := true
    archived := false
    fork := false
    sources := ["s"]
    metadata := "null" }

/-- A three-row table with ascending ids 1, 2, 3. -/
def table3 : List Row := [mkRow 1 "r1", mkRow 2 "r2", mkRow 3 "r3"]

/-- A store already bound to a transaction but carrying a non-empty kind
allow-list (as built directly by `NewDBStore` over a `Tx` handle). -/
def storeTxKinds : DBStore :=
  { db := DB.tx 0, kinds := ["github"], txOpts := { isolation := 0, readOnly := false } }

/-- A live, sourced row whose external service type is not `GITHUB`. -/
def rowOther : Row := { mkRow 1 "o" with externalServiceType := some "OTHER" }

/-- A store over a transaction-capable handle, with a kind allow-list. -/
def storeBeginner : DBStore :=
  { db := DB.txBeginner 3, kinds := ["github"], txOpts := { isolation := 0, readOnly := false } }

/-- The cursor value carried by the pagination loop after having consumed a
prefix of the table: the id of the last consumed row, `0` before the first
row (matching the loop's `next` initialisation). -/
def cursorOf (l : List Row) : Int :=
  match l.getLast? with
  | some r => (r.id : Int)
  | none => 0

/-- A single fresh repo used to witness the order-preservation theorem. -/
def repoW : Repo := { baseRepo with name := "w" }

/-- The batch serialisation of `[repoW]`. -/
def batchW : List BatchRow := (toRecords [repoW]).toOption.getD []

/-- The successful result of upserting `[repoW]` into an empty table. -/
def resW : List Repo := (upsertRepos [] 1 [repoW]).toOption.getD []

/-! ## Theorems -/

/-! ## C5: sources set round-trip -/

/-- C5: encoding any sequence of source tags with `sourcesColumn` and decoding
the result with `scanRepo`'s sources step yields each distinct tag exactly
once, sorted lexicographically; in particular `["github", "github"]`
round-trips to `["github"]`. -/
theorem sources_roundtrip_sorted_dedup :
    (∀ l : List String,
      List.Sorted (fun a b : String => a ≤ b) (scanSources (sourcesColumn l)) ∧
      (scanSources (sourcesColumn l)).Nodup ∧
      (∀ s : String, s ∈ scanSources (sourcesColumn l) ↔ s ∈ l)) ∧
    scanSources (sourcesColumn ["github", "github"]) = ["github"] := by
  constructor
  · intro l
    refine ⟨List.sorted_insertionSort _ _, ?_, ?_⟩
    · exact ((List.perm_insertionSort _ _).nodup_iff).mpr (List.nodup_dedup _)
    · intro s
      simp only [scanSources, sourcesColumn, List.mem_insertionSort, List.mem_dedup]
  · rfl

/-- C6: `Done` is a no-op when the store is not bound to a transaction; when it
is, it commits if called with no error pointer or if the pointed-to error is
nil, and rolls back exactly when the pointed-to error is non-nil. -/
theorem done_noop_commit_rollback (s : DBStore) (errs : List (Option (Option String))) :
    s.done errs =
      if s.db.isTx then
        if firstPointedErrorPresent errs then TxAction.rollback else TxAction.commit
      else TxAction.noop := by
  cases h : s.db with
  | tx t =>
    cases errs with
    | nil => simp [DBStore.done, DB.isTx, firstPointedErrorPresent, h]
    | cons p rest =>
      cases p with
      | none => simp [DBStore.done, DB.isTx, firstPointedErrorPresent, h]
      | some e =>
        cases e with
        | none => simp [DBStore.done, DB.isTx, firstPointedErrorPresent, h]
        | some msg => simp [DBStore.done, DB.isTx, firstPointedErrorPresent, h]
  | txBeginner t => simp [DBStore.done, DB.isTx, h]
  | txBeginnerErr m => simp [DBStore.done, DB.isTx, h]
  | plain => simp [DBStore.done, DB.isTx, h]

/-- C7: `Transact` on a store whose handle is already a transaction returns
that same store with no error; `Transact` on a handle that is neither a
transaction nor capable of beginning one returns the distinct "not
transactable" error and no store. -/
theorem transact_reentrant_and_not_transactable (s₁ s₂ : DBStore) (t : Nat)
    (h₁ : s₁.db = DB.tx t) (h₂ : s₂.db = DB.plain) :
    s₁.transact = .ok s₁ ∧ s₂.transact = .error StoreErr.notTransactable := by
  constructor
  · simp [DBStore.transact, h₁]
  · simp [DBStore.transact, h₂]

/-- Witness for C7 at concrete stores. -/
theorem transact_reentrant_and_not_transactable_witness :
    let s₁ : DBStore := { db := DB.tx 7, kinds := ["github"], txOpts := ⟨0, false⟩ }
    let s₂ : DBStore := { db := DB.plain, kinds := [], txOpts := ⟨0, false⟩ }
    s₁.transact = .ok s₁ ∧ s₂.transact = .error StoreErr.notTransactable :=
  transact_reentrant_and_not_transactable _ _ 7 rfl rfl

/-- C8: upserting `[repoA, repoB]` against an empty table (serial sequence at
`1`) inserts both rows; the first output carries the fresh server-assigned id
`1`, the second carries id `5` (`GREATEST(5, 2)` where `2` is its newly
assigned serial id), and the output order is `[a, b]`. -/
theorem upsert_empty_table_scenario :
    (upsertRepos [] 1 [repoA, repoB]).map (fun rs => rs.map (fun r => (r.id, r.name))) =
      .ok [(1, "a"), (5, "b")] ∧
    (toRecords [repoA, repoB]).map (fun batch => (insertRows [] batch 1).map Row.id) =
      .ok [1, 2] := by
  constructor
  · rfl
  · rfl

/-- C2 (failing input): for a matched row whose incoming `external_id` is
`NULL`, the `updated` CTE writes the existing row's `external_service_id`
(`"SVC"`) into `external_id` — the source line
`external_id = COALESCE(batch.external_id, repo.external_service_id)` — so
the field does not fall back to the existing `external_id` (`"EXT"`) as the
other two origin fields do for theirs.  The full call and the isolated
`updated` CTE both exhibit it. -/
theorem upsert_externalID_coalesce_defect :
    rowE.externalID = some "EXT" ∧
    rowE.externalServiceID = some "SVC" ∧
    (toRecord repoD).map BatchRow.externalID = .ok none ∧
    (toRecord repoD).map (fun b => (updateRow b rowE).externalID) = .ok (some "SVC") ∧
    (upsertRepos [rowE] 1 [repoD]).map (fun rs => rs.map (fun r => r.externalRepo.id)) =
      .ok ["SVC"] := by
  refine ⟨rfl, rfl, rfl, rfl, rfl⟩

/-- C3 (failing input): the batch record serialiser hard-codes the
description to the empty string (`Description: "", //r.Description,` in
`upsertReposQuery`), so the description column written to storage and
returned in the output row is `""`, not the input entity's `"hello"`. -/
theorem upsert_description_dropped :
    repoC.description = "hello" ∧
    (toRecord repoC).map BatchRow.description = .ok "" ∧
    (upsertRepos [] 1 [repoC]).map (fun rs => rs.map Repo.description) = .ok [""] := by
  refine ⟨rfl, rfl, rfl⟩

/-- C10 (counterexample to the claimed reachability): on the claim's example
input — two batch rows sharing a name, against an empty table — the final
name-based joins would indeed multiply rows (4 result rows for 2 inputs),
but the statement itself violates the unique-name constraint and aborts, so
the decode step never runs, let alone indexes past the input slice. -/
theorem upsert_duplicate_names_abort :
    upsertRepos [] 1 [repoN1, repoN2] = .error UpsertErr.constraintViolation ∧
    (toRecords [repoN1, repoN2]).map
      (fun batch => (upsertOutputRows [] batch 1).length) = .ok 4 := by
  refine ⟨rfl, rfl⟩

/-- C9 (counterexample): a store bound to a transaction but constructed with a
non-empty kind allow-list (legal via `NewDBStore` over a `Tx` handle) is
returned unchanged by a successful reentrant `Transact`, so this
transactional store *does* apply its kind filter: a live, sourced row of kind
`OTHER` is excluded from `ListRepos` through it, though included with an
empty allow-list. -/
theorem transact_kinds_carryover_counterexample :
    storeTxKinds.transact = .ok storeTxKinds ∧
    storeTxKinds.kinds = ["github"] ∧
    listRowPred storeTxKinds.kinds [] rowOther = false ∧
    listRowPred [] [] rowOther = true ∧
    listRepos storeTxKinds [rowOther] [] = some [] ∧
    listRepos { storeTxKinds with kinds := [] } [rowOther] [] = some [scanRepo rowOther] := by
  refine ⟨rfl, rfl, rfl, rfl, rfl, rfl⟩

/-- C9 (amended): a store returned by a `Transact` call that begins a *new*
transaction carries an empty kind allow-list (the Go composite literal omits
`kinds`), so `ListRepos` through it applies no external-service-kind filter:
its row predicate degenerates to the deletion/sources/name conditions. -/
theorem transact_fresh_tx_drops_kinds (s s' : DBStore) (t : Nat)
    (hdb : s.db = DB.txBeginner t) (h : s.transact = .ok s') :
    s'.kinds = [] ∧
    ∀ (names : List String) (r : Row),
      listRowPred s'.kinds names r =
        ((r.deletedAt == none) && (!r.sources.isEmpty || names.contains r.name)) := by
  rw [DBStore.transact, hdb] at h
  have hs : s' = { db := DB.tx t, kinds := [], txOpts := s.txOpts } := by
    cases h
    rfl
  subst hs
  refine ⟨rfl, ?_⟩
  intro names r
  simp [listRowPred]

/-- Witness for the amended C9 at a concrete store. -/
theorem transact_fresh_tx_drops_kinds_witness :
    ({ db := DB.tx 3, kinds := [], txOpts := storeBeginner.txOpts } : DBStore).kinds = [] ∧
    ∀ (names : List String) (r : Row),
      listRowPred ({ db := DB.tx 3, kinds := [], txOpts := storeBeginner.txOpts } : DBStore).kinds
          names r =
        ((r.deletedAt == none) && (!r.sources.isEmpty || names.contains r.name)) :=
  transact_fresh_tx_drops_kinds storeBeginner _ 3 rfl rfl

/-- C4 (counterexample to the round count): three matching rows with ids
1, 2, 3 and page size 2 are all returned, in order, but the loop runs 3 page
queries — `ceil(3/2) + 1` — not the claimed `ceil(3/2) = 2`: the final round
fetches nothing and only detects termination. -/
theorem paginate_rounds_counterexample :
    paginate table3 [] [] 2 = some (table3.map scanRepo, 3) ∧
    (3 : Nat) ≠ (table3.length + 2 - 1) / 2 := by
  refine ⟨rfl, by decide⟩

/-! ## Pagination: correctness of the loop (C4) -/

theorem scanRepo_id (r : Row) : (scanRepo r).id = r.id := rfl

theorem getLast?_map_scanRepo (l : List Row) :
    (l.map scanRepo).getLast? = l.getLast?.map scanRepo := by
  induction l with
  | nil => rfl
  | cons r t ih =>
    cases t with
    | nil => rfl
    | cons s u =>
      rw [List.map_cons, List.map_cons, List.getLast?_cons_cons, ← List.map_cons, ih,
        List.getLast?_cons_cons]

theorem cursorOf_eq_getLast (l : List Row) (h : l ≠ []) :
    cursorOf l = ((l.getLast h).id : Int) := by
  unfold cursorOf
  rw [List.getLast?_eq_getLast _ h]

theorem cursorOf_cons_cons (a b : Row) (u : List Row) :
    cursorOf (a :: b :: u) = cursorOf (b :: u) := by
  unfold cursorOf
  rw [List.getLast?_cons_cons]

/-- Every id in a strictly id-ascending list is bounded by the cursor the
loop reaches after consuming it. -/
theorem id_le_cursorOf (l : List Row)
    (hp : List.Pairwise (fun a b : Row => a.id < b.id) l) :
    ∀ r ∈ l, (r.id : Int) ≤ cursorOf l := by
  induction l with
  | nil => intro r hr; cases hr
  | cons a t ih =>
    intro r hr
    cases t with
    | nil =>
      have hra : r = a := by simpa using hr
      subst hra
      rw [cursorOf_eq_getLast [r] (by simp), List.getLast_singleton]
    | cons b u =>
      rw [cursorOf_cons_cons]
      rcases List.mem_cons.mp hr with rfl | hmem
      · have hlast : (b :: u).getLast (by simp) ∈ b :: u := List.getLast_mem _
        have hlt : r.id < ((b :: u).getLast (by simp)).id :=
          (List.pairwise_cons.mp hp).1 _ hlast
        rw [cursorOf_eq_getLast (b :: u) (by simp)]
        exact_mod_cast le_of_lt hlt
      · exact ih (List.pairwise_cons.mp hp).2 r hmem

/-- Rows of the unconsumed suffix lie strictly above the cursor. -/
theorem cursorOf_lt_of_mem_rest (done rest : List Row)
    (hasc : List.Pairwise (fun a b : Row => a.id < b.id) (done ++ rest))
    (hpos : ∀ r ∈ done ++ rest, 1 ≤ r.id) :
    ∀ r ∈ rest, cursorOf done < (r.id : Int) := by
  intro r hr
  cases hd : done with
  | nil =>
    have h1 : 1 ≤ r.id := hpos r (by simp [hd, hr])
    show (0 : Int) < (r.id : Int)
    exact_mod_cast h1
  | cons a t =>
    have hne : done ≠ [] := by rw [hd]; simp
    have hlast : done.getLast hne ∈ done := List.getLast_mem _
    have hcross : ∀ x ∈ done, ∀ y ∈ rest, x.id < y.id :=
      (List.pairwise_append.mp hasc).2.2
    have hlt : (done.getLast hne).id < r.id := hcross _ hlast r hr
    rw [← hd, cursorOf_eq_getLast done hne]
    exact_mod_cast hlt

/-- The page query at the cursor of a consumed prefix returns exactly the
next `P` rows of the table. -/
theorem listReposPage_eq_take (kinds names : List String) (P : Nat)
    (done rest : List Row)
    (hasc : List.Pairwise (fun a b : Row => a.id < b.id) (done ++ rest))
    (hpos : ∀ r ∈ done ++ rest, 1 ≤ r.id)
    (hfil : ∀ r ∈ done ++ rest, listRowPred kinds names r = true) :
    listReposPage (done ++ rest) kinds names (cursorOf done) P = rest.take P := by
  unfold listReposPage
  have hq : ∀ r ∈ done ++ rest,
      (decide (cursorOf done < (r.id : Int)) && listRowPred kinds names r) =
        decide (cursorOf done < (r.id : Int)) := by
    intro r hr
    rw [hfil r hr, Bool.and_true]
  rw [List.filter_congr hq, List.filter_append]
  have hdone : done.filter (fun r => decide (cursorOf done < (r.id : Int))) = [] := by
    apply List.filter_eq_nil_iff.mpr
    intro r hr
    have hle : (r.id : Int) ≤ cursorOf done :=
      id_le_cursorOf done (List.pairwise_append.mp hasc).1 r hr
    simpa using not_lt_of_le hle
  have hrest : rest.filter (fun r => decide (cursorOf done < (r.id : Int))) = rest := by
    apply List.filter_eq_self.mpr
    intro r hr
    simpa using cursorOf_lt_of_mem_rest done rest hasc hpos r hr
  rw [hdone, hrest, List.nil_append]
  have hsorted : List.Sorted (fun a b : Row => a.id ≤ b.id) rest :=
    ((List.pairwise_append.mp hasc).2.1).imp (fun h => le_of_lt h)
  rw [hsorted.insertionSort_eq]

/-- Unfolding equation of one loop iteration. -/
theorem paginateAux_succ (table : List Row) (kinds names : List String) (P : Nat)
    (fuel : Nat) (cursor next : Int) (acc : List Repo) :
    paginateAux table kinds names P (fuel + 1) cursor next acc =
      if cursor = next then some (acc, 0)
      else
        match paginateAux table kinds names P fuel next
            (match (acc ++ (listReposPage table kinds names next P).map scanRepo).getLast? with
             | some r => (r.id : Int)
             | none => next)
            (acc ++ (listReposPage table kinds names next P).map scanRepo) with
        | some (res, n) => some (res, n + 1)
        | none => none := rfl

/-- With the cursor already equal to `next`, the loop stops at once with no
further page query. -/
theorem paginateAux_stop (table : List Row) (kinds names : List String) (P : Nat)
    (fuel : Nat) (hfuel : 0 < fuel) (x : Int) (acc : List Repo) :
    paginateAux table kinds names P fuel x x acc = some (acc, 0) := by
  cases fuel with
  | zero => omega
  | succ g => rw [paginateAux_succ, if_pos rfl]

/-- Arithmetic step of the round count: consuming one page of size `P`
decreases the pending ceiling quotient by exactly one. -/
theorem ceil_div_succ (N P : Nat) (hN : 1 ≤ N) (hP : 1 ≤ P) :
    (N + P - 1) / P = ((N - P) + P - 1) / P + 1 := by
  rcases le_or_lt P N with h | h
  · have he : N + P - 1 = (N - P + P - 1) + P := by omega
    rw [he, Nat.add_div_right _ hP]
  · have h1 : N - P = 0 := by omega
    have h2 : N + P - 1 = (N - 1) + P := by omega
    have h3 : 0 + P - 1 = P - 1 := by omega
    rw [h1, h2, Nat.add_div_right _ hP, Nat.div_eq_of_lt (by omega : N - 1 < P), h3,
      Nat.div_eq_of_lt (by omega : P - 1 < P)]

/-- Invariant run of the pagination loop: from a consumed prefix `done` (with
accumulator holding its scanned rows and `next` at its cursor), the loop
returns the whole table and performs `ceil(len rest / P) + 1` further page
queries. -/
theorem paginateAux_run (table : List Row) (kinds names : List String) (P : Nat)
    (hP : 0 < P)
    (hasc : List.Pairwise (fun a b : Row => a.id < b.id) table)
    (hpos : ∀ r ∈ table, 1 ≤ r.id)
    (hfil : ∀ r ∈ table, listRowPred kinds names r = true) :
    ∀ (fuel : Nat) (done rest : List Row) (c : Int),
      table = done ++ rest →
      c ≠ cursorOf done →
      rest.length + 2 ≤ fuel →
      paginateAux table kinds names P fuel c (cursorOf done) (done.map scanRepo) =
        some (table.map scanRepo, (rest.length + P - 1) / P + 1) := by
  intro fuel
  induction fuel with
  | zero =>
    intro done rest c _ _ hf
    omega
  | succ fuel ih =>
    intro done rest c htab hne hf
    rw [paginateAux_succ, if_neg hne]
    have hpage : listReposPage table kinds names (cursorOf done) P = rest.take P := by
      rw [htab]
      exact listReposPage_eq_take kinds names P done rest (htab ▸ hasc) (htab ▸ hpos)
        (htab ▸ hfil)
    rw [hpage, ← List.map_append]
    have hnext : (match ((done ++ rest.take P).map scanRepo).getLast? with
                  | some r => (r.id : Int)
                  | none => cursorOf done) = cursorOf (done ++ rest.take P) := by
      rw [getLast?_map_scanRepo]
      cases hgl : (done ++ rest.take P).getLast? with
      | some r =>
        simp only [Option.map_some']
        unfold cursorOf
        rw [hgl, scanRepo_id]
      | none =>
        simp only [Option.map_none']
        have hnil : done ++ rest.take P = [] := by
          cases hl : done ++ rest.take P with
          | nil => rfl
          | cons x xs =>
            rw [hl] at hgl
            rw [List.getLast?_eq_getLast _ (by simp)] at hgl
            cases hgl
        have hdnil : done = [] := (List.append_eq_nil.mp hnil).1
        rw [hnil, hdnil]
    rw [hnext]
    cases rest with
    | nil =>
      simp only [List.take_nil, List.append_nil]
      rw [paginateAux_stop table kinds names P fuel (by omega) (cursorOf done)
        (done.map scanRepo)]
      have hdone : table = done := by simpa using htab
      rw [hdone]
      have hr : (List.length ([] : List Row) + P - 1) / P + 1 = 1 := by
        simp only [List.length_nil, Nat.zero_add]
        rw [Nat.div_eq_of_lt (by omega : P - 1 < P)]
      rw [hr]
    | cons r rs =>
      have htake : (r :: rs).take P ≠ [] := by
        cases P with
        | zero => omega
        | succ q => simp [List.take]
      have htab' : table = (done ++ (r :: rs).take P) ++ (r :: rs).drop P := by
        rw [List.append_assoc, List.take_append_drop]
        exact htab
      have hlastmem : (done ++ (r :: rs).take P).getLast? =
          ((r :: rs).take P).getLast? := List.getLast?_append_of_ne_nil _ htake
      have hne' : cursorOf done ≠ cursorOf (done ++ (r :: rs).take P) := by
        have hlast : ((r :: rs).take P).getLast (by exact htake) ∈ (r :: rs).take P :=
          List.getLast_mem _
        have hmem : ((r :: rs).take P).getLast (by exact htake) ∈ r :: rs :=
          List.mem_of_mem_take hlast
        have hlt : cursorOf done <
            ((((r :: rs).take P).getLast (by exact htake)).id : Int) :=
          cursorOf_lt_of_mem_rest done (r :: rs) (htab ▸ hasc) (htab ▸ hpos) _ hmem
        have hcur : cursorOf (done ++ (r :: rs).take P) =
            ((((r :: rs).take P).getLast (by exact htake)).id : Int) := by
          unfold cursorOf
          rw [hlastmem, List.getLast?_eq_getLast _ htake]
        rw [hcur]
        exact ne_of_lt hlt
      have hfuel' : ((r :: rs).drop P).length + 2 ≤ fuel := by
        rw [List.length_drop]
        simp only [List.length_cons] at hf ⊢
        omega
      rw [ih (done ++ (r :: rs).take P) ((r :: rs).drop P) (cursorOf done) htab' hne' hfuel']
      have harith : ((r :: rs).drop P).length + P - 1 =
          ((r :: rs).length - P) + P - 1 := by
        rw [List.length_drop]
      rw [harith, ← ceil_div_succ ((r :: rs).length) P (by simp) hP]

/-- C4 (amended): for a table of `N` live, sourced, filter-matching rows with
strictly ascending positive ids and a page size `0 < P < N`, the pagination
loop returns all `N` rows exactly once, in ascending id order (the scanned
table itself, in table order), and performs `ceil(N / P) + 1` page queries:
`ceil(N / P)` rounds that return rows plus one final empty round that detects
termination. -/
theorem paginate_complete_rounds (table : List Row) (kinds names : List String) (P : Nat)
    (hP : 0 < P) (hPN : P < table.length)
    (hasc : List.Pairwise (fun a b : Row => a.id < b.id) table)
    (hpos : ∀ r ∈ table, 1 ≤ r.id)
    (hfil : ∀ r ∈ table, listRowPred kinds names r = true) :
    paginate table kinds names P =
      some (table.map scanRepo, (table.length + P - 1) / P + 1) := by
  unfold paginate
  have h0 : cursorOf ([] : List Row) = 0 := rfl
  have hrun := paginateAux_run table kinds names P hP hasc hpos hfil
    (table.length + 2) [] table (-1) (by simp) (by rw [h0]; omega) (by omega)
  rw [h0] at hrun
  simpa using hrun

/-- Witness for the amended C4 at a concrete table (ids 1, 2, 3) and page
size 2: all three rows come back in order in `ceil(3/2) + 1 = 3` rounds. -/
theorem paginate_complete_rounds_witness :
    paginate table3 [] [] 2 = some (table3.map scanRepo, (table3.length + 2 - 1) / 2 + 1) :=
  paginate_complete_rounds table3 [] [] 2 (by decide) (by decide) (by decide) (by decide)
    (by decide)

/-! ## Upsert: order preservation under the unique-name constraint (C1, C10) -/

theorem updatedRows_sublist (table : List Row) (batch : List BatchRow) :
    (updatedRows table batch).Sublist (tableAfterUpdate table batch) := by
  induction table with
  | nil => simp [updatedRows, tableAfterUpdate]
  | cons r t ih =>
    simp only [updatedRows, tableAfterUpdate, List.filterMap_cons, List.map_cons] at ih ⊢
    cases h : findMatch batch r with
    | some b =>
      simp only [h, Option.map_some']
      exact List.Sublist.cons₂ _ ih
    | none =>
      simp only [h, Option.map_none']
      exact List.Sublist.cons _ ih

/-- In a list of rows with pairwise-distinct names, at most one row carries
any given name. -/
theorem length_filter_name_le_one (l : List Row) (n : String)
    (h : (l.map Row.name).Nodup) :
    (l.filter (fun r => r.name == n)).length ≤ 1 := by
  induction l with
  | nil => simp
  | cons r t ih =>
    rw [List.map_cons, List.nodup_cons] at h
    by_cases hr : r.name = n
    · have ht : t.filter (fun x => x.name == n) = [] := by
        apply List.filter_eq_nil_iff.mpr
        intro x hx hbx
        apply h.1
        have hxn : x.name = n := by simpa using hbx
        rw [hr, ← hxn]
        exact List.mem_map_of_mem _ hx
      rw [List.filter_cons_of_pos (by simpa using hr), ht]
      simp
    · rw [List.filter_cons_of_neg (by simpa using hr)]
      exact ih h.2

/-- When the join partners of a batch row are unique on each side, the two
`LEFT JOIN`s contribute exactly one output row: the row's hydration with its
(at most one) updated and inserted partners. -/
theorem rowsFor_singleton (us ins : List Row) (b : BatchRow)
    (hu : (us.filter (fun u => u.name == b.name)).length ≤ 1)
    (hi : (ins.filter (fun r => r.name == b.name)).length ≤ 1) :
    rowsFor us ins b = [hydrateOne us ins b] := by
  unfold rowsFor hydrateOne
  cases hfu : us.filter (fun u => u.name == b.name) with
  | nil =>
    cases hfi : ins.filter (fun r => r.name == b.name) with
    | nil => simp [hfu, hfi]
    | cons x xs =>
      rw [hfi] at hi
      have hxs : xs = [] := by
        rw [List.length_cons] at hi
        exact List.length_eq_zero.mp (by omega)
      subst hxs
      simp [hfu, hfi]
  | cons y ys =>
    rw [hfu] at hu
    have hys : ys = [] := by
      rw [List.length_cons] at hu
      exact List.length_eq_zero.mp (by omega)
    subst hys
    cases hfi : ins.filter (fun r => r.name == b.name) with
    | nil => simp [hfu, hfi]
    | cons x xs =>
      rw [hfi] at hi
      have hxs : xs = [] := by
        rw [List.length_cons] at hi
        exact List.length_eq_zero.mp (by omega)
      subst hxs
      simp [hfu, hfi]

/-- With unique names on both join sides, the final `SELECT` produces exactly
one row per batch row, in ordinal order. -/
theorem flatten_map_rowsFor (us ins : List Row)
    (hu : (us.map Row.name).Nodup) (hi : (ins.map Row.name).Nodup)
    (bs : List BatchRow) :
    (bs.map (rowsFor us ins)).flatten = bs.map (hydrateOne us ins) := by
  induction bs with
  | nil => rfl
  | cons b t ih =>
    rw [List.map_cons, List.map_cons, List.flatten_cons, ih,
      rowsFor_singleton us ins b (length_filter_name_le_one us b.name hu)
        (length_filter_name_le_one ins b.name hi), List.singleton_append]

/-- The unique-name constraint on the final table state makes the names of
the `updated` result set and of the `inserted` result set each pairwise
distinct. -/
theorem constraints_nodup_parts (table : List Row) (batch : List BatchRow) (nid : Nat)
    (h : upsertConstraintsOK table batch nid) :
    ((updatedRows table batch).map Row.name).Nodup ∧
    ((insertRows table batch nid).map Row.name).Nodup := by
  unfold upsertConstraintsOK finalTable at h
  rw [List.map_append] at h
  refine ⟨?_, h.of_append_right⟩
  exact List.Nodup.sublist ((updatedRows_sublist table batch).map Row.name) h.of_append_left

/-- Under the unique-name constraint the reconciliation statement returns one
hydrated row per batch row, in batch order. -/
theorem upsertOutputRows_eq_map (table : List Row) (batch : List BatchRow) (nid : Nat)
    (h : upsertConstraintsOK table batch nid) :
    upsertOutputRows table batch nid =
      batch.map (hydrateOne (updatedRows table batch) (insertRows table batch nid)) := by
  obtain ⟨hu, hi⟩ := constraints_nodup_parts table batch nid h
  exact flatten_map_rowsFor _ _ hu hi batch

theorem marshalMetadata_error (m : Metadata) (e : UpsertErr)
    (h : marshalMetadata m = .error e) : e = UpsertErr.metadataMarshal := by
  cases m with
  | bytes s => simp [marshalMetadata] at h
  | str s => simp [marshalMetadata] at h
  | raw s => simp [marshalMetadata] at h
  | structured o =>
    cases o with
    | none =>
      simp only [marshalMetadata, Except.error.injEq] at h
      exact h.symm
    | some s => simp [marshalMetadata] at h

theorem toRecord_error (r : Repo) (e : UpsertErr) (h : toRecord r = .error e) :
    e = UpsertErr.metadataMarshal := by
  unfold toRecord at h
  cases hm : marshalMetadata r.metadata with
  | error e' =>
    rw [hm] at h
    injection h with h'
    exact h' ▸ marshalMetadata_error r.metadata e' hm
  | ok md =>
    rw [hm] at h
    exact Except.noConfusion h

theorem toRecords_error (repos : List Repo) :
    ∀ e : UpsertErr, toRecords repos = .error e → e = UpsertErr.metadataMarshal := by
  induction repos with
  | nil => intro e h; simp [toRecords] at h
  | cons r rs ih =>
    intro e h
    simp only [toRecords] at h
    cases hr : toRecord r with
    | error e' =>
      rw [hr] at h
      injection h with h'
      exact h' ▸ toRecord_error r e' hr
    | ok b =>
      rw [hr] at h
      cases hrs : toRecords rs with
      | error e' =>
        rw [hrs] at h
        injection h with h'
        exact h' ▸ ih e' hrs
      | ok bs =>
        rw [hrs] at h
        exact Except.noConfusion h

theorem toRecords_length (repos : List Repo) (batch : List BatchRow)
    (h : toRecords repos = .ok batch) : batch.length = repos.length := by
  induction repos generalizing batch with
  | nil =>
    simp only [toRecords, Except.ok.injEq] at h
    rw [← h]
    rfl
  | cons r rs ih =>
    simp only [toRecords] at h
    cases hr : toRecord r with
    | error e =>
      rw [hr] at h
      exact Except.noConfusion h
    | ok b =>
      rw [hr] at h
      cases hrs : toRecords rs with
      | error e =>
        rw [hrs] at h
        exact Except.noConfusion h
      | ok bs =>
        rw [hrs] at h
        injection h with h'
        rw [← h', List.length_cons, List.length_cons, ih bs hrs]

/-- C1: for every non-empty input sequence on which `UpsertRepos` succeeds,
the decoded output has exactly one entry per input repo, and the `i`-th
output entity is the decoding of the hydrated reconciliation row of the
`i`-th batch record — output order matches input order by ordinal,
independent of which rows were updated and which inserted. -/
theorem upsertRepos_order_preservation (table : List Row) (nid : Nat)
    (repos res : List Repo) (batch : List BatchRow)
    (hne : repos ≠ [])
    (hbatch : toRecords repos = .ok batch)
    (hok : upsertRepos table nid repos = .ok res) :
    res.length = repos.length ∧
    res = batch.map (fun b =>
      scanRepo (hydrateOne (updatedRows table batch) (insertRows table batch nid) b)) := by
  unfold upsertRepos at hok
  have hemp : repos.isEmpty = false := by
    cases repos with
    | nil => exact absurd rfl hne
    | cons a l => rfl
  rw [hemp] at hok
  simp only [Bool.false_eq_true, if_false, hbatch] at hok
  by_cases hc : upsertConstraintsOK table batch nid
  · rw [if_pos hc] at hok
    unfold decodeRows at hok
    rw [upsertOutputRows_eq_map table batch nid hc] at hok
    have hblen : batch.length = repos.length := toRecords_length repos batch hbatch
    have hlen : (batch.map
        (hydrateOne (updatedRows table batch) (insertRows table batch nid))).length =
        repos.length := by
      rw [List.length_map, hblen]
    rw [if_neg (by rw [hlen]; omega)] at hok
    injection hok with hok
    rw [List.drop_eq_nil_of_le (le_of_eq hlen.symm), List.append_nil, List.map_map] at hok
    constructor
    · rw [← hok, List.length_map, hblen]
    · exact hok.symm
  · rw [if_neg hc] at hok
    exact Except.noConfusion hok

/-- Witness for C1 at a concrete input. -/
theorem upsertRepos_order_preservation_witness :
    resW.length = ([repoW] : List Repo).length ∧
    resW = batchW.map (fun b =>
      scanRepo (hydrateOne (updatedRows [] batchW) (insertRows [] batchW 1) b)) :=
  upsertRepos_order_preservation [] 1 [repoW] resW batchW (by simp) rfl rfl

/-- C10 (amended): the decode loop writes the `i`-th returned row into
`repos[i]` with no bounds check, so it is safe only when the statement
returns at most `len(repos)` rows; since a succeeding statement returns
exactly one row per batch record under the unique-name constraint, the
out-of-bounds decode is unreachable — `UpsertRepos` never fails with the
index-out-of-range outcome, on any input. -/
theorem upsertRepos_decode_never_overflows (table : List Row) (nid : Nat)
    (repos : List Repo) :
    upsertRepos table nid repos ≠ .error UpsertErr.indexOutOfRange := by
  intro h
  unfold upsertRepos at h
  by_cases hemp : repos.isEmpty
  · rw [if_pos hemp] at h
    exact Except.noConfusion h
  · rw [if_neg hemp] at h
    cases hb : toRecords repos with
    | error e =>
      simp only [hb] at h
      injection h with h'
      have := toRecords_error repos e hb
      rw [this] at h'
      exact UpsertErr.noConfusion h'
    | ok batch =>
      simp only [hb] at h
      by_cases hc : upsertConstraintsOK table batch nid
      · rw [if_pos hc] at h
        unfold decodeRows at h
        rw [upsertOutputRows_eq_map table batch nid hc] at h
        have hblen : batch.length = repos.length := toRecords_length repos batch hb
        rw [if_neg (by rw [List.length_map, hblen]; omega)] at h
        exact Except.noConfusion h
      · rw [if_neg hc] at h
        injection h with h'
        exact UpsertErr.noConfusion h'

end ReposStore
